import Mathlib

/-!
# Orthogonal equipartition search: a verified shallow embedding

This file embeds the core of `algorithm.py`: the reference search
`orthogonal_equipartition`, the event-driven search
`orthogonal_equipartition_efficient`, the verifier
`count_points_in_quadrants`, and the validator `is_equipartition_valid`.

Coordinates are modelled as exact rationals (the idealised reading of the
IEEE doubles of the source).

## Angle encoding

The source represents orientations by radian angles produced by
`math.atan2` and manipulated only through

* equality (`set` deduplication),
* linear order (`sorted`),
* shifts by `± math.pi/2`,
* sector tests `(pt_angle - angle) % (2*math.pi)` against multiples of
  `math.pi/2`,
* `math.tan`.

All five observations are preserved exactly by the classical *pseudoangle*
encoding `pa x y` defined below: `pa` is a strictly increasing function of
`atan2(y, x)` mapping the range `(-pi, pi]` onto `(-2, 2]`, and rotating a
vector by a quarter turn adds exactly `1` (modulo `4`, the encoding of a
full turn `2*pi`).  So a source angle `atan2(dy, dx) + k*pi/2` is
represented here by the rational `pa dx dy + k`; equality, order, the
`% (2*pi)` sector tests (which become `% 4` tests against integers) and the
tangent are then all computed exactly in `ℚ`.  Two source angles are equal
(resp. ordered, in the same quarter sector) iff their encodings are, so an
angle difference of `pi` becomes an encoding difference of exactly `2`.

Vertical slopes: the efficient search manipulates the float infinity value as a slope
value; it is modelled by the dedicated constructor `ESlope.inf`.  `math.tan`
never returns an infinity (its float argument is never exactly `pi/2`), but
at an exactly vertical encoded angle the ideal tangent is undefined;
`tanOfPseudo` returns `none` there, and the doc comment records the float
reading (a huge finite value).
-/

namespace OrthEquip

/-- A planar point with exact rational coordinates. -/
abbrev Point := ℚ × ℚ

/-- The Python operator `%` with modulus `4` on rationals (the image of
`% (2*math.pi)` under the pseudoangle encoding, which maps a full turn to
`4`).  Always in `[0, 4)`. -/
def qmod4 (a : ℚ) : ℚ := a - 4 * (⌊a / 4⌋ : ℚ)

/-- Exact pseudoangle encoding of `math.atan2 y x`: strictly increasing in
the angle, with range `(-2, 2]` corresponding to `(-pi, pi]`; the positive
x-axis maps to `0`, the positive y-axis to `1`, the negative x-axis to `2`
(matching `atan2(0, x) = pi` for `x < 0`), the negative y-axis to `-1`.
Rotating `(x, y)` by a quarter turn adds exactly `1` modulo `4`. -/
def pa (x y : ℚ) : ℚ :=
  if 0 < y then 1 - x / (|x| + y)
  else if y < 0 then -(1 - x / (|x| - y))
  else if 0 ≤ x then 0 else 2

/-- Sort a list of rationals ascending (the builtin `sorted`). -/
def sortQ (l : List ℚ) : List ℚ := l.insertionSort (· ≤ ·)

/-- Insert into a sorted duplicate-free list, dropping exact duplicates.
`sortedDedup` below models `sorted(list(set(...)))` from the source, whose
result is exactly the ascending duplicate-free list of the distinct
values. -/
def insertSD (a : ℚ) : List ℚ → List ℚ
  | [] => [a]
  | b :: l => if a < b then a :: b :: l else if a = b then b :: l else b :: insertSD a l

/-- The model of `sorted(list(set(l)))`: ascending, duplicate-free, same
members. -/
def sortedDedup (l : List ℚ) : List ℚ := l.foldr insertSD []

/-- Quadrant counts, the value of the `(q1, q2, q3, q4)` tuples and of the
`{"Q1": .., "Q2": .., "Q3": .., "Q4": ..}` dictionary of the source. -/
structure Counts where
  q1 : ℕ
  q2 : ℕ
  q3 : ℕ
  q4 : ℕ
deriving DecidableEq, Repr

/-- Increment the quadrant count selected by a (0-indexed) quadrant label:
`0 ↦ Q1`, `1 ↦ Q2`, `2 ↦ Q3`, `3 ↦ Q4`. -/
def bump (q : Counts) : Fin 4 → Counts
  | 0 => { q with q1 := q.q1 + 1 }
  | 1 => { q with q2 := q.q2 + 1 }
  | 2 => { q with q3 := q.q3 + 1 }
  | 3 => { q with q4 := q.q4 + 1 }

/-- `max(abs(q1 - target), ..., abs(q4 - target))` with `target = n / 4`
(true division), lines 89-92 and 185-187 of `algorithm.py`. -/
def imbalance (n : ℕ) (q : Counts) : ℚ :=
  let target : ℚ := (n : ℚ) / 4
  max (max |(q.q1 : ℚ) - target| |(q.q2 : ℚ) - target|)
      (max |(q.q3 : ℚ) - target| |(q.q4 : ℚ) - target|)

/-! ## The reference search `orthogonal_equipartition` (lines 5-101) -/

/-- The pivot computation shared by both searches (lines 21-27 and 122-129):
the `n // 2`-th entry of the coordinates sorted ascending, per axis.  Total
function; the `IndexError` raised on an empty input is modelled at the
`orthogonal_equipartition` wrapper. -/
def refCenter (points : List Point) : Point :=
  let n := points.length
  ((sortQ (points.map Prod.fst)).getD (n / 2) 0,
   (sortQ (points.map Prod.snd)).getD (n / 2) 0)

/-- The raw critical-angle events (lines 34-50): for each point other than
the center, the encoded `atan2` angle together with its `± pi/2` shifts
(`± 1` in the encoding), in iteration order. -/
def angleEvents (points : List Point) (c : Point) : List ℚ :=
  points.foldr
    (fun p acc =>
      if p = c then acc
      else
        let P := pa (p.1 - c.1) (p.2 - c.2)
        P :: (P + 1) :: (P - 1) :: acc)
    []

/-- The critical-angle list (lines 34-53): the raw events passed through
`sorted(list(set(...)))`. -/
def criticalAngles (points : List Point) (c : Point) : List ℚ :=
  sortedDedup (angleEvents points c)

/-- Per-angle quadrant counting of the reference engine (lines 64-87):
classify every non-center point by the sector of
`(pt_angle - angle) % (2*pi)`, which the encoding renders as
`(pa dx dy - P) % 4` tested against `1`, `2`, `3`. -/
def refCounts (points : List Point) (c : Point) (P : ℚ) : Counts :=
  points.foldl
    (fun q p =>
      if p = c then q
      else
        let r := qmod4 (pa (p.1 - c.1) (p.2 - c.2) - P)
        if 0 ≤ r ∧ r < 1 then { q with q1 := q.q1 + 1 }
        else if 1 ≤ r ∧ r < 2 then { q with q2 := q.q2 + 1 }
        else if 2 ≤ r ∧ r < 3 then { q with q3 := q.q3 + 1 }
        else { q with q4 := q.q4 + 1 })
    ⟨0, 0, 0, 0⟩

/-- One step of the angle sweep of the reference engine (lines 59-96):
evaluate the imbalance at the critical angle `P` and update the running
`(best_imbalance, best_angle)` pair on strict improvement only. -/
def refStep (n : ℕ) (points : List Point) (c : Point) (best : ℚ × ℚ) (P : ℚ) : ℚ × ℚ :=
  let imb := imbalance n (refCounts points c P)
  if imb < best.1 then (imb, P) else best

/-- The angle sweep of the reference engine (lines 55-96): starting from
`best_imbalance = n` and `best_angle = 0`, fold `refStep` over the critical
angles.  Returns the final `(best_imbalance, best_angle)` pair. -/
def refBest (points : List Point) : ℚ × ℚ :=
  (criticalAngles points (refCenter points)).foldl
    (refStep points.length points (refCenter points))
    ((points.length : ℚ), 0)

/-- `math.tan` at the angle encoded by the pseudoangle `P`.  Reducing modulo
`2` (the encoding of the period `pi` of the tangent) leaves `r2 ∈ [0, 2)`;
the direction of `r2` is `(1 - r2, r2)` for `r2 ∈ [0, 1]` and
`(1 - r2, 2 - r2)` for `r2 ∈ [1, 2)`, giving the exact quotients below.
`none` encodes the vertical direction `r2 = 1`, where the ideal tangent is
undefined (the float `math.tan` returns a huge but finite value there,
never an infinity). -/
def tanOfPseudo (P : ℚ) : Option ℚ :=
  let r := qmod4 P
  let r2 := if r < 2 then r else r - 2
  if r2 = 1 then none
  else if r2 < 1 then some (r2 / (1 - r2))
  else some ((2 - r2) / (1 - r2))

/-- `orthogonal_equipartition` (lines 5-101).  `none` models the
`IndexError` that `points_by_x[n // 2]` raises on an empty input; for a
nonempty input the function always returns the center and `tan` of the best
critical angle (ties broken by the first angle in ascending order, the
initial `best_angle = 0` surviving only if no angle improves on the
initial `best_imbalance = n`). -/
def orthogonal_equipartition (points : List Point) : Option (Point × Option ℚ) :=
  if points.length = 0 then none
  else some (refCenter points, tanOfPseudo (refBest points).2)

/-! ## The efficient search `orthogonal_equipartition_efficient`
(lines 103-243) -/

/-- A slope value of the efficient search: a finite rational or the
the float infinity value sentinel. -/
inductive ESlope where
  | fin (q : ℚ)
  | inf
deriving DecidableEq, Repr

/-- The strict order of float slope values (`inf` greater than every finite
value; `-inf` never occurs among events). -/
def eLt : ESlope → ESlope → Bool
  | .fin a, .fin b => a < b
  | .fin _, .inf => true
  | .inf, _ => false

/-- Lexicographic order on `(slope, event_type)` pairs, as used by the
builtin `slope_events.sort()`. -/
def eventLe (e f : ESlope × ℕ) : Prop :=
  eLt e.1 f.1 = true ∨ (e.1 = f.1 ∧ e.2 ≤ f.2)

instance : DecidableRel eventLe := fun e f => by
  unfold eventLe; infer_instance

/-- The perpendicular-slope transform of the efficient search (lines
157-162, recomputed inline at line 220): slope `0` maps to the vertical
sentinel, the vertical sentinel maps to `0`, and a finite nonzero slope to
`-1/slope`. -/
def perp_slope_of : ESlope → ESlope
  | .fin m => if m = 0 then .inf else .fin (-1 / m)
  | .inf => .fin 0

/-- `above_main` of the efficient search (line 217): `dy > slope * dx`
unless the slope is the vertical sentinel, in which case `dx < 0`. -/
def aboveMain (s : ESlope) (dx dy : ℚ) : Bool :=
  match s with
  | .inf => decide (dx < 0)
  | .fin m => decide (dy > m * dx)

/-- `above_perp` of the efficient search (lines 220-221): classify against
`perp_slope_of s`, the vertical sentinel again read as `dx < 0`. -/
def abovePerp (s : ESlope) (dx dy : ℚ) : Bool :=
  match perp_slope_of s with
  | .inf => decide (dx < 0)
  | .fin m => decide (dy > m * dx)

/-- Relative coordinates of the non-center points (lines 131-140). -/
def relativePoints (points : List Point) (c : Point) : List (ℚ × ℚ) :=
  (points.filter (fun p => p ≠ c)).map (fun p => (p.1 - c.1, p.2 - c.2))

/-- The event list (lines 144-164): per relative point one main event
`(dy/dx, 1)` (the vertical sentinel when `dx = 0`) and one perpendicular
event `(perp, 2)`. -/
def slopeEvents (rel : List (ℚ × ℚ)) : List (ESlope × ℕ) :=
  rel.foldr
    (fun d acc =>
      let slope : ESlope := if d.1 = 0 then .inf else .fin (d.2 / d.1)
      (slope, 1) :: (perp_slope_of slope, 2) :: acc)
    []

/-- Initial quadrant counts for the horizontal/vertical configuration
(lines 172-182): strict sign tests whose `else` branch collects the
`dx = 0` and `dy = 0` points into `q4`. -/
def effInitCounts (rel : List (ℚ × ℚ)) : Counts :=
  rel.foldl
    (fun q d =>
      if 0 < d.1 ∧ 0 < d.2 then { q with q1 := q.q1 + 1 }
      else if d.1 < 0 ∧ 0 < d.2 then { q with q2 := q.q2 + 1 }
      else if d.1 < 0 ∧ d.2 < 0 then { q with q3 := q.q3 + 1 }
      else { q with q4 := q.q4 + 1 })
    ⟨0, 0, 0, 0⟩

/-- The loop state of the event sweep of the efficient search: current
quadrant counts, best imbalance and slope so far, and `current_slope`
(initially negative float infinity, which no event equals; modelled as `none`). -/
structure EffState where
  counts : Counts
  bestImb : ℚ
  bestSlope : ESlope
  current : Option ESlope
deriving DecidableEq, Repr

/-- One iteration of the event loop (lines 194-241): skip an event whose
slope equals `current_slope`; otherwise record the slope and, for a
main-line event (`event_type == 1`), recount all quadrants from scratch
with `aboveMain`/`abovePerp` and update the optimum on strict
improvement. -/
def effStep (n : ℕ) (rel : List (ℚ × ℚ)) (st : EffState) (ev : ESlope × ℕ) : EffState :=
  if st.current = some ev.1 then st
  else
    let st1 : EffState := { st with current := some ev.1 }
    if ev.2 = 1 then
      let q := rel.foldl
        (fun (q : Counts) d =>
          let am := aboveMain ev.1 d.1 d.2
          let ap := abovePerp ev.1 d.1 d.2
          if am && ap then { q with q1 := q.q1 + 1 }
          else if !am && ap then { q with q2 := q.q2 + 1 }
          else if !am && !ap then { q with q3 := q.q3 + 1 }
          else { q with q4 := q.q4 + 1 })
        ⟨0, 0, 0, 0⟩
      let imb := imbalance n q
      if imb < st1.bestImb then { st1 with counts := q, bestImb := imb, bestSlope := ev.1 }
      else { st1 with counts := q }
    else st1

/-- The pivot computation of the efficient search (lines 122-129), the same
code as `refCenter` (the source duplicates it verbatim). -/
def effCenter (points : List Point) : Point :=
  let n := points.length
  ((sortQ (points.map Prod.fst)).getD (n / 2) 0,
   (sortQ (points.map Prod.snd)).getD (n / 2) 0)

/-- The whole event sweep of the efficient search (lines 120-241): center,
relative points, sorted events, initial configuration, then the event
loop.  Returns the final loop state. -/
def effState (points : List Point) : EffState :=
  let n := points.length
  let c := effCenter points
  let rel := relativePoints points c
  let sorted_events := (slopeEvents rel).insertionSort eventLe
  let init := effInitCounts rel
  sorted_events.foldl (effStep n rel)
    { counts := init, bestImb := imbalance n init, bestSlope := .fin 0, current := none }

/-- `orthogonal_equipartition_efficient` (lines 103-243).  `none` models
the `IndexError` on an empty input; otherwise the center together with the
final `best_slope` (initially the horizontal slope `0`). -/
def orthogonal_equipartition_efficient (points : List Point) : Option (Point × ESlope) :=
  if points.length = 0 then none
  else some (effCenter points, (effState points).bestSlope)

/-! ## The verifier `count_points_in_quadrants` (lines 245-284) and the
validator `is_equipartition_valid` (lines 286-300) -/

/-- Classification of one point by `count_points_in_quadrants` (lines
259-282), for a finite slope.  The perpendicular slope is `-1/slope` for
`slope != 0` and the float infinity value for `slope == 0`; in the latter case the
float comparison `dy > inf * dx` holds iff `dx < 0` (for `dx = 0` the
product is `nan` and the comparison is false), so `above_line2` is
modelled as `dx < 0` there.  Returns the 0-indexed quadrant label. -/
def classifyCount (c : Point) (slope : ℚ) (p : Point) : Fin 4 :=
  let dx := p.1 - c.1
  let dy := p.2 - c.2
  let above1 := decide (dy > slope * dx)
  let above2 := if slope = 0 then decide (dx < 0) else decide (dy > -1 / slope * dx)
  if above1 && above2 then 0
  else if !above1 && above2 then 1
  else if !above1 && !above2 then 2
  else 3

/-- `count_points_in_quadrants` (lines 245-284): bucket every non-center
point by `classifyCount`. -/
def count_points_in_quadrants (points : List Point) (c : Point) (slope : ℚ) : Counts :=
  points.foldl
    (fun q p => if p = c then q else bump q (classifyCount c slope p))
    ⟨0, 0, 0, 0⟩

/-- `is_equipartition_valid` (lines 286-300): every count within
`[math.floor(n/4), math.ceil(n/4)]`. -/
def is_equipartition_valid (q : Counts) (n : ℕ) : Bool :=
  let expected_min : ℤ := ⌊(n : ℚ) / 4⌋
  let expected_max : ℤ := ⌈(n : ℚ) / 4⌉
  decide (expected_min ≤ (q.q1 : ℤ) ∧ (q.q1 : ℤ) ≤ expected_max) &&
  decide (expected_min ≤ (q.q2 : ℤ) ∧ (q.q2 : ℤ) ≤ expected_max) &&
  decide (expected_min ≤ (q.q3 : ℤ) ∧ (q.q3 : ℤ) ≤ expected_max) &&
  decide (expected_min ≤ (q.q4 : ℤ) ∧ (q.q4 : ℤ) ≤ expected_max)

/-- General position in the sense of the spec glossary: no two points share
an x- or y-coordinate, and no point coincides with the (computed) pivot. -/
def GenPos (points : List Point) : Prop :=
  (points.map Prod.fst).Pairwise (· ≠ ·) ∧
  (points.map Prod.snd).Pairwise (· ≠ ·) ∧
  refCenter points ∉ points

instance : DecidablePred GenPos := fun points => by
  unfold GenPos; infer_instance

/-! ## Supporting lemmas -/

theorem inf_ne_fin (q : ℚ) : ESlope.inf ≠ ESlope.fin q := fun h => ESlope.noConfusion h

theorem fin_ne_inf (q : ℚ) : ESlope.fin q ≠ ESlope.inf := fun h => ESlope.noConfusion h

theorem none_ne_someE (s : ESlope) : (none : Option ESlope) ≠ some s :=
  fun h => Option.noConfusion h

theorem mem_insertSD (x a : ℚ) : ∀ (l : List ℚ), x ∈ insertSD a l ↔ x = a ∨ x ∈ l := by
  intro l
  induction l with
  | nil => simp [insertSD]
  | cons b t ih =>
    simp only [insertSD]
    split_ifs with h1 h2
    · simp [List.mem_cons]
    · subst h2
      simp only [List.mem_cons]
      tauto
    · simp only [List.mem_cons, ih]
      tauto

theorem sorted_insertSD (a : ℚ) :
    ∀ {l : List ℚ}, l.Sorted (· < ·) → (insertSD a l).Sorted (· < ·) := by
  intro l
  induction l with
  | nil => intro _; simp [insertSD]
  | cons b t ih =>
    intro hs
    rw [List.sorted_cons] at hs
    obtain ⟨hb, ht⟩ := hs
    simp only [insertSD]
    split_ifs with h1 h2
    · rw [List.sorted_cons]
      refine ⟨?_, by rw [List.sorted_cons]; exact ⟨hb, ht⟩⟩
      intro x hx
      rcases List.mem_cons.1 hx with rfl | hx
      · exact h1
      · exact lt_trans h1 (hb x hx)
    · rw [List.sorted_cons]
      exact ⟨hb, ht⟩
    · rw [List.sorted_cons]
      refine ⟨?_, ih ht⟩
      intro x hx
      rcases (mem_insertSD x a t).1 hx with rfl | hx
      · exact lt_of_le_of_ne (le_of_not_lt h1) fun h => h2 h.symm
      · exact hb x hx

theorem mem_sortedDedup (x : ℚ) : ∀ (l : List ℚ), x ∈ sortedDedup l ↔ x ∈ l := by
  intro l
  induction l with
  | nil => simp [sortedDedup]
  | cons b t ih =>
    show x ∈ insertSD b (sortedDedup t) ↔ _
    rw [mem_insertSD, ih, List.mem_cons]

theorem sorted_sortedDedup : ∀ (l : List ℚ), (sortedDedup l).Sorted (· < ·) := by
  intro l
  induction l with
  | nil => simp [sortedDedup]
  | cons b t ih => exact sorted_insertSD b ih

theorem mem_angleEvents (points : List Point) (c : Point) (x : ℚ) :
    x ∈ angleEvents points c ↔
      ∃ p ∈ points, p ≠ c ∧
        (x = pa (p.1 - c.1) (p.2 - c.2) ∨ x = pa (p.1 - c.1) (p.2 - c.2) + 1 ∨
          x = pa (p.1 - c.1) (p.2 - c.2) - 1) := by
  induction points with
  | nil => simp [angleEvents]
  | cons p t ih =>
    show x ∈ (if p = c then angleEvents t c else _ :: _ :: _ :: angleEvents t c) ↔ _
    by_cases hp : p = c
    · rw [if_pos hp, ih]
      constructor
      · rintro ⟨q, hq, hqc, hx⟩
        exact ⟨q, List.mem_cons_of_mem _ hq, hqc, hx⟩
      · rintro ⟨q, hq, hqc, hx⟩
        rcases List.mem_cons.1 hq with rfl | hq
        · exact absurd hp hqc
        · exact ⟨q, hq, hqc, hx⟩
    · rw [if_neg hp]
      simp only [List.mem_cons, ih]
      constructor
      · rintro (rfl | rfl | rfl | ⟨q, hq, hqc, hx⟩)
        · exact ⟨p, Or.inl rfl, hp, Or.inl rfl⟩
        · exact ⟨p, Or.inl rfl, hp, Or.inr (Or.inl rfl)⟩
        · exact ⟨p, Or.inl rfl, hp, Or.inr (Or.inr rfl)⟩
        · exact ⟨q, Or.inr hq, hqc, hx⟩
      · rintro ⟨q, rfl | hq, hqc, hx⟩
        · rcases hx with rfl | rfl | rfl
          · exact Or.inl rfl
          · exact Or.inr (Or.inl rfl)
          · exact Or.inr (Or.inr (Or.inl rfl))
        · exact Or.inr (Or.inr (Or.inr ⟨q, hq, hqc, hx⟩))

theorem foldl_best_spec (f : ℚ → ℚ) :
    ∀ (l : List ℚ) (b : ℚ × ℚ),
      (l.foldl (fun b P => if f P < b.1 then (f P, P) else b) b = b
          ∧ ∀ P ∈ l, b.1 ≤ f P) ∨
      (∃ l1 P l2, l = l1 ++ P :: l2
          ∧ l.foldl (fun b P => if f P < b.1 then (f P, P) else b) b = (f P, P)
          ∧ f P < b.1
          ∧ (∀ Q ∈ l1, f P < f Q)
          ∧ (∀ Q ∈ l2, f P ≤ f Q)) := by
  intro l
  induction l with
  | nil => intro b; left; simp
  | cons P0 t ih =>
    intro b
    by_cases h0 : f P0 < b.1
    · rcases ih (f P0, P0) with ⟨heq, hall⟩ | ⟨l1, P, l2, hsplit, heq, hlt, h1, h2⟩
      · right
        refine ⟨[], P0, t, by simp, ?_, h0, by simp, fun Q hQ => hall Q hQ⟩
        simpa [List.foldl_cons, if_pos h0] using heq
      · right
        refine ⟨P0 :: l1, P, l2, by simp [hsplit], ?_, lt_trans hlt h0, ?_, h2⟩
        · simpa [List.foldl_cons, if_pos h0] using heq
        · intro Q hQ
          rcases List.mem_cons.1 hQ with rfl | hQ
          · exact hlt
          · exact h1 Q hQ
    · rcases ih b with ⟨heq, hall⟩ | ⟨l1, P, l2, hsplit, heq, hlt, h1, h2⟩
      · left
        refine ⟨by simpa [List.foldl_cons, if_neg h0] using heq, ?_⟩
        intro Q hQ
        rcases List.mem_cons.1 hQ with rfl | hQ
        · exact le_of_not_lt h0
        · exact hall Q hQ
      · right
        refine ⟨P0 :: l1, P, l2, by simp [hsplit], ?_, hlt, ?_, h2⟩
        · simpa [List.foldl_cons, if_neg h0] using heq
        · intro Q hQ
          rcases List.mem_cons.1 hQ with rfl | hQ
          · exact lt_of_lt_of_le hlt (le_of_not_lt h0)
          · exact h1 Q hQ

theorem refStep_eq (n : ℕ) (points : List Point) (c : Point) :
    refStep n points c = fun best P =>
      if imbalance n (refCounts points c P) < best.1
        then (imbalance n (refCounts points c P), P) else best := rfl

theorem pa_zero_of_pos {y : ℚ} (h : 0 < y) : pa 0 y = 1 := by
  norm_num [pa, h]

theorem pa_zero_of_neg {y : ℚ} (h : y < 0) : pa 0 y = -1 := by
  norm_num [pa, h, show ¬ (0 : ℚ) < y from not_lt.2 h.le]

theorem exists_fst_eq_refCenter (points : List Point) (hne : points ≠ []) :
    ∃ p ∈ points, p.1 = (refCenter points).1 := by
  have hlen : 0 < points.length := List.length_pos.2 hne
  have hperm := List.perm_insertionSort ((· ≤ ·) : ℚ → ℚ → Prop) (points.map Prod.fst)
  have hlt : points.length / 2 < (sortQ (points.map Prod.fst)).length := by
    rw [sortQ, hperm.length_eq, List.length_map]
    exact Nat.div_lt_self hlen (by norm_num)
  have hmem : (sortQ (points.map Prod.fst)).getD (points.length / 2) 0 ∈
      sortQ (points.map Prod.fst) := by
    rw [List.getD_eq_getElem _ _ hlt]
    exact List.getElem_mem hlt
  have hmem2 : (sortQ (points.map Prod.fst)).getD (points.length / 2) 0 ∈
      points.map Prod.fst := (hperm.mem_iff).1 hmem
  rcases List.mem_map.1 hmem2 with ⟨p, hp, hpf⟩
  exact ⟨p, hp, hpf⟩

theorem refBest_snd_mem (points : List Point) :
    (refBest points).2 = 0 ∨ (refBest points).2 ∈ criticalAngles points (refCenter points) := by
  rw [refBest, refStep_eq]
  rcases foldl_best_spec
      (fun P => imbalance points.length (refCounts points (refCenter points) P))
      (criticalAngles points (refCenter points)) ((points.length : ℚ), 0) with
    ⟨heq, _⟩ | ⟨l1, P, l2, hsplit, heq, _, _, _⟩
  · rw [heq]; exact Or.inl rfl
  · rw [heq]
    right
    rw [hsplit]
    exact List.mem_append_right _ (List.mem_cons_self _ _)

theorem bump_sum (q : Counts) (i : Fin 4) :
    (bump q i).q1 + (bump q i).q2 + (bump q i).q3 + (bump q i).q4 =
      q.q1 + q.q2 + q.q3 + q.q4 + 1 := by
  fin_cases i <;> simp [bump] <;> omega

theorem count_foldl_sum (c : Point) (slope : ℚ) :
    ∀ (points : List Point) (acc : Counts),
      ((points.foldl (fun q p => if p = c then q else bump q (classifyCount c slope p)) acc).q1 +
       (points.foldl (fun q p => if p = c then q else bump q (classifyCount c slope p)) acc).q2 +
       (points.foldl (fun q p => if p = c then q else bump q (classifyCount c slope p)) acc).q3 +
       (points.foldl (fun q p => if p = c then q else bump q (classifyCount c slope p)) acc).q4) =
      acc.q1 + acc.q2 + acc.q3 + acc.q4 + (points.filter (fun p => p ≠ c)).length := by
  intro points
  induction points with
  | nil => intro acc; simp
  | cons p t ih =>
    intro acc
    by_cases hp : p = c
    · have hf : List.filter (fun q => q ≠ c) (p :: t) = List.filter (fun q => q ≠ c) t := by
        simp [List.filter_cons, hp]
      simp only [List.foldl_cons, if_pos hp, hf]
      exact ih acc
    · have hf : List.filter (fun q => q ≠ c) (p :: t) = p :: List.filter (fun q => q ≠ c) t := by
        simp [List.filter_cons, hp]
      simp only [List.foldl_cons, if_neg hp, hf, List.length_cons]
      rw [ih (bump acc (classifyCount c slope p)), bump_sum]
      omega

theorem count_sum (points : List Point) (c : Point) (slope : ℚ) :
    (count_points_in_quadrants points c slope).q1 +
    (count_points_in_quadrants points c slope).q2 +
    (count_points_in_quadrants points c slope).q3 +
    (count_points_in_quadrants points c slope).q4 =
      (points.filter (fun p => p ≠ c)).length := by
  have h := count_foldl_sum c slope points ⟨0, 0, 0, 0⟩
  simpa [count_points_in_quadrants] using h

theorem length_filter_ne_of_nodup (c : Point) :
    ∀ (points : List Point), points.Nodup →
      (points.filter (fun p => p ≠ c)).length =
        points.length - (if c ∈ points then 1 else 0) := by
  intro points
  induction points with
  | nil => intro _; simp
  | cons p t ih =>
    intro hnd
    rw [List.nodup_cons] at hnd
    obtain ⟨hpt, hnd⟩ := hnd
    by_cases hp : p = c
    · subst hp
      have hfilter : t.filter (fun q => q ≠ p) = t := by
        apply List.filter_eq_self.2
        intro a ha
        have hne : a ≠ p := fun h => hpt (h ▸ ha)
        simpa using hne
      have hf : List.filter (fun q => q ≠ p) (p :: t) = t := by
        rw [List.filter_cons, if_neg]
        · exact hfilter
        · simp
      simp only [hf, List.length_cons, List.mem_cons, true_or, if_pos]
      omega
    · have hf : List.filter (fun q => q ≠ c) (p :: t) = p :: List.filter (fun q => q ≠ c) t := by
        simp [List.filter_cons, hp]
      have hpc : ¬ c = p := fun h => hp h.symm
      simp only [hf, List.length_cons, ih hnd, List.mem_cons, hpc, false_or]
      by_cases hc : c ∈ t
      · have h1 : 0 < t.length := List.length_pos_of_mem hc
        simp only [hc, if_true]
        omega
      · simp [hc]

theorem classifyCount_onMain (c : Point) (slope : ℚ) (p : Point)
    (h : p.2 - c.2 = slope * (p.1 - c.1)) :
    classifyCount c slope p = 1 ∨ classifyCount c slope p = 2 := by
  have h1 : (decide (p.2 - c.2 > slope * (p.1 - c.1))) = false := by
    simp [h]
  simp only [classifyCount, h1]
  cases h2 : (if slope = 0 then decide (p.1 - c.1 < 0)
      else decide (p.2 - c.2 > -1 / slope * (p.1 - c.1))) <;> simp [h2]

theorem classifyCount_onPerp (c : Point) (slope : ℚ) (p : Point)
    (h : if slope = 0 then p.1 = c.1 else p.2 - c.2 = -1 / slope * (p.1 - c.1)) :
    classifyCount c slope p = 2 ∨ classifyCount c slope p = 3 := by
  have h2 : (if slope = 0 then decide (p.1 - c.1 < 0)
      else decide (p.2 - c.2 > -1 / slope * (p.1 - c.1))) = false := by
    by_cases hs : slope = 0
    · rw [if_pos hs] at h ⊢
      simp [h]
    · rw [if_neg hs] at h ⊢
      simp [h]
  simp only [classifyCount, h2]
  cases h1 : (decide (p.2 - c.2 > slope * (p.1 - c.1))) <;> simp [h1]

theorem floor_nat_div_four (n : ℕ) : ⌊(n : ℚ) / 4⌋ = ((n / 4 : ℕ) : ℤ) := by
  have key := Rat.floor_intCast_div_natCast (n : ℤ) 4
  have h : ((((n : ℤ)) : ℚ) / ((4 : ℕ) : ℚ)) = (n : ℚ) / 4 := by push_cast; ring
  rw [h] at key
  omega

theorem ceil_nat_div_four (n : ℕ) : ⌈(n : ℚ) / 4⌉ = (((n + 3) / 4 : ℕ) : ℤ) := by
  have key := Rat.floor_intCast_div_natCast (-(n : ℤ)) 4
  have h : (((-(n : ℤ)) : ℤ) : ℚ) / ((4 : ℕ) : ℚ) = -((n : ℚ) / 4) := by push_cast; ring
  rw [h] at key
  have h2 : ⌊-((n : ℚ) / 4)⌋ = -⌈(n : ℚ) / 4⌉ := Int.floor_neg
  omega

/-! ## Claim theorems -/

/-- C3: `is_equipartition_valid counts n` returns true iff every quadrant
count lies in the closed interval from `floor(n/4)` to `ceil(n/4)` (for
natural `n` these are `n / 4` and `(n + 3) / 4` in integer division); in
particular for `n = 200` it returns true iff every count equals `50`, and
for `n = 201` iff every count is `50` or `51`. -/
theorem c3_validator_boundary (q : Counts) (n : ℕ) :
    (is_equipartition_valid q n = true ↔
      ((n / 4 ≤ q.q1 ∧ q.q1 ≤ (n + 3) / 4) ∧ (n / 4 ≤ q.q2 ∧ q.q2 ≤ (n + 3) / 4) ∧
       (n / 4 ≤ q.q3 ∧ q.q3 ≤ (n + 3) / 4) ∧ (n / 4 ≤ q.q4 ∧ q.q4 ≤ (n + 3) / 4))) ∧
    (is_equipartition_valid q 200 = true ↔
      (q.q1 = 50 ∧ q.q2 = 50 ∧ q.q3 = 50 ∧ q.q4 = 50)) ∧
    (is_equipartition_valid q 201 = true ↔
      ((q.q1 = 50 ∨ q.q1 = 51) ∧ (q.q2 = 50 ∨ q.q2 = 51) ∧
       (q.q3 = 50 ∨ q.q3 = 51) ∧ (q.q4 = 50 ∨ q.q4 = 51))) := by
  have hgen : ∀ m : ℕ, (is_equipartition_valid q m = true ↔
      ((m / 4 ≤ q.q1 ∧ q.q1 ≤ (m + 3) / 4) ∧ (m / 4 ≤ q.q2 ∧ q.q2 ≤ (m + 3) / 4) ∧
       (m / 4 ≤ q.q3 ∧ q.q3 ≤ (m + 3) / 4) ∧ (m / 4 ≤ q.q4 ∧ q.q4 ≤ (m + 3) / 4))) := by
    intro m
    simp only [is_equipartition_valid, Bool.and_eq_true, decide_eq_true_eq,
      floor_nat_div_four, ceil_nat_div_four]
    omega
  refine ⟨hgen n, ?_, ?_⟩
  · rw [hgen 200]
    omega
  · rw [hgen 201]
    omega

/-- C4: for every duplicate-free point set and every pivot and finite slope,
the four counts returned by `count_points_in_quadrants` sum to `n` minus one
exactly when the pivot is a member of the point set (the pivot itself is
skipped; every other point lands in exactly one quadrant). -/
theorem c4_count_conservation (points : List Point) (c : Point) (slope : ℚ)
    (h : points.Nodup) :
    (count_points_in_quadrants points c slope).q1 +
    (count_points_in_quadrants points c slope).q2 +
    (count_points_in_quadrants points c slope).q3 +
    (count_points_in_quadrants points c slope).q4 =
      points.length - (if c ∈ points then 1 else 0) := by
  rw [count_sum, length_filter_ne_of_nodup c points h]

/-- Witness for C4 at the two-point set `[(1,2), (3,4)]` with the pivot
`(1,2)` a member of the set: the counts sum to `2 - 1`. -/
theorem c4_count_conservation_witness :
    (count_points_in_quadrants [((1:ℚ),(2:ℚ)), ((3:ℚ),(4:ℚ))] ((1:ℚ),(2:ℚ)) 5).q1 +
    (count_points_in_quadrants [((1:ℚ),(2:ℚ)), ((3:ℚ),(4:ℚ))] ((1:ℚ),(2:ℚ)) 5).q2 +
    (count_points_in_quadrants [((1:ℚ),(2:ℚ)), ((3:ℚ),(4:ℚ))] ((1:ℚ),(2:ℚ)) 5).q3 +
    (count_points_in_quadrants [((1:ℚ),(2:ℚ)), ((3:ℚ),(4:ℚ))] ((1:ℚ),(2:ℚ)) 5).q4 =
      ([((1:ℚ),(2:ℚ)), ((3:ℚ),(4:ℚ))] : List Point).length -
        (if ((1:ℚ),(2:ℚ)) ∈ ([((1:ℚ),(2:ℚ)), ((3:ℚ),(4:ℚ))] : List Point) then 1 else 0) :=
  c4_count_conservation _ _ _
    (by norm_num [List.nodup_cons, Prod.ext_iff, -Prod.mk_one_one, -Prod.mk_zero_zero])

/-- C6: both searches fail (modelled by `none`, the `IndexError` of the
median lookup) exactly on the empty input; every nonempty input yields a
`(pivot, slope)` result. -/
theorem c6_empty_input_failure (points : List Point) :
    (orthogonal_equipartition points = none ↔ points = []) ∧
    (orthogonal_equipartition_efficient points = none ↔ points = []) := by
  constructor
  · simp only [orthogonal_equipartition]
    split_ifs with h
    · simp [List.length_eq_zero.1 h]
    · rw [List.length_eq_zero] at h
      simp [h]
  · simp only [orthogonal_equipartition_efficient]
    split_ifs with h
    · simp [List.length_eq_zero.1 h]
    · rw [List.length_eq_zero] at h
      simp [h]

/-- C7: on every nonempty input both search modes use the same pivot, the
pair of per-axis upper medians: the entry at index `n / 2` of the sorted
coordinate list of each axis (a coordinate-wise median, not a 2D median);
every returned result carries exactly this pivot.  Moreover the pivot need
not be a member of the input set, witnessed by `[(0,1), (1,0)]` whose pivot
is `(1,1)`. -/
theorem c7_pivot_coordinatewise_median :
    (∀ points : List Point, points ≠ [] →
      effCenter points = refCenter points ∧
      (∀ c1 s1, orthogonal_equipartition points = some (c1, s1) → c1 = refCenter points) ∧
      (∀ c2 s2, orthogonal_equipartition_efficient points = some (c2, s2) →
        c2 = refCenter points) ∧
      ∃ xs ys : List ℚ,
        xs.Perm (points.map Prod.fst) ∧ xs.Sorted (· ≤ ·) ∧
        ys.Perm (points.map Prod.snd) ∧ ys.Sorted (· ≤ ·) ∧
        refCenter points = (xs.getD (points.length / 2) 0, ys.getD (points.length / 2) 0)) ∧
    (∃ points : List Point, points ≠ [] ∧ refCenter points ∉ points) := by
  constructor
  · intro points hne
    have hlen : ¬ points.length = 0 := by
      rw [List.length_eq_zero]
      exact hne
    refine ⟨rfl, ?_, ?_, ?_⟩
    · intro c1 s1 h
      rw [orthogonal_equipartition, if_neg hlen] at h
      simp only [Option.some.injEq, Prod.mk.injEq] at h
      exact h.1.symm
    · intro c2 s2 h
      rw [orthogonal_equipartition_efficient, if_neg hlen] at h
      simp only [Option.some.injEq, Prod.mk.injEq] at h
      exact h.1.symm
    · refine ⟨sortQ (points.map Prod.fst), sortQ (points.map Prod.snd),
        List.perm_insertionSort _ _, List.sorted_insertionSort _ _,
        List.perm_insertionSort _ _, List.sorted_insertionSort _ _, rfl⟩
  · refine ⟨[((0:ℚ),(1:ℚ)), ((1:ℚ),(0:ℚ))], by simp, ?_⟩
    have hc : refCenter [((0:ℚ),(1:ℚ)), ((1:ℚ),(0:ℚ))] = ((1:ℚ), (1:ℚ)) := by
      norm_num [refCenter, sortQ, List.insertionSort, List.orderedInsert,
        -Prod.mk_one_one, -Prod.mk_zero_zero, Prod.ext_iff]
    rw [hc]
    norm_num [List.mem_cons, Prod.ext_iff, -Prod.mk_one_one, -Prod.mk_zero_zero]

/-- Witness for C7 at the nonempty input `[(1,2), (3,4)]`. -/
theorem c7_pivot_witness :
    effCenter [((1:ℚ),(2:ℚ)), ((3:ℚ),(4:ℚ))] = refCenter [((1:ℚ),(2:ℚ)), ((3:ℚ),(4:ℚ))] ∧
    (∀ c1 s1, orthogonal_equipartition [((1:ℚ),(2:ℚ)), ((3:ℚ),(4:ℚ))] = some (c1, s1) →
      c1 = refCenter [((1:ℚ),(2:ℚ)), ((3:ℚ),(4:ℚ))]) ∧
    (∀ c2 s2, orthogonal_equipartition_efficient [((1:ℚ),(2:ℚ)), ((3:ℚ),(4:ℚ))] =
        some (c2, s2) → c2 = refCenter [((1:ℚ),(2:ℚ)), ((3:ℚ),(4:ℚ))]) ∧
    ∃ xs ys : List ℚ,
      xs.Perm (([((1:ℚ),(2:ℚ)), ((3:ℚ),(4:ℚ))] : List Point).map Prod.fst) ∧
      xs.Sorted (· ≤ ·) ∧
      ys.Perm (([((1:ℚ),(2:ℚ)), ((3:ℚ),(4:ℚ))] : List Point).map Prod.snd) ∧
      ys.Sorted (· ≤ ·) ∧
      refCenter [((1:ℚ),(2:ℚ)), ((3:ℚ),(4:ℚ))] =
        (xs.getD (([((1:ℚ),(2:ℚ)), ((3:ℚ),(4:ℚ))] : List Point).length / 2) 0,
         ys.getD (([((1:ℚ),(2:ℚ)), ((3:ℚ),(4:ℚ))] : List Point).length / 2) 0) :=
  c7_pivot_coordinatewise_median.1 [((1:ℚ),(2:ℚ)), ((3:ℚ),(4:ℚ))] (by simp)

/-- C8: the perpendicular-slope transform is an involution: applying the
negative-reciprocal transform twice returns any slope to itself exactly,
including through the sentinel cases (slope `0` maps to the vertical
sentinel and the vertical sentinel maps back to slope `0`).  This covers
in particular every slope the efficient search returns. -/
theorem c8_perp_involution (s : ESlope) : perp_slope_of (perp_slope_of s) = s := by
  cases s with
  | inf => simp [perp_slope_of]
  | fin m =>
    by_cases hm : m = 0
    · simp [perp_slope_of, hm]
    · have hne : ¬ (-1 / m = 0) := by
        simp [div_eq_zero_iff, hm]
      simp only [perp_slope_of, if_neg hm, if_neg hne, ESlope.fin.injEq]
      field_simp

/-- C10: the verifier classifier is total and deterministic even off the
general-position precondition: a point exactly on the primary line
(`dy = slope * dx`) is classified below it (into Q2 or Q3), a point exactly
on the perpendicular line is classified below it (into Q3 or Q4, where for
slope `0` the perpendicular is the vertical line `dx = 0`), and the four
counts always absorb every non-center point exactly once. -/
theorem c10_classifier_totality :
    (∀ (c : Point) (slope : ℚ) (p : Point), p.2 - c.2 = slope * (p.1 - c.1) →
      classifyCount c slope p = 1 ∨ classifyCount c slope p = 2) ∧
    (∀ (c : Point) (slope : ℚ) (p : Point),
      (if slope = 0 then p.1 = c.1 else p.2 - c.2 = -1 / slope * (p.1 - c.1)) →
      classifyCount c slope p = 2 ∨ classifyCount c slope p = 3) ∧
    (∀ (points : List Point) (c : Point) (slope : ℚ),
      (count_points_in_quadrants points c slope).q1 +
      (count_points_in_quadrants points c slope).q2 +
      (count_points_in_quadrants points c slope).q3 +
      (count_points_in_quadrants points c slope).q4 =
        (points.filter (fun p => p ≠ c)).length) :=
  ⟨classifyCount_onMain, classifyCount_onPerp, count_sum⟩

/-- Witness for C10: the point `(1,2)` lies on the primary line of slope `2`
through the origin and is classified below it. -/
theorem c10_classifier_witness :
    classifyCount ((0:ℚ),(0:ℚ)) 2 ((1:ℚ),(2:ℚ)) = 1 ∨
    classifyCount ((0:ℚ),(0:ℚ)) 2 ((1:ℚ),(2:ℚ)) = 2 :=
  c10_classifier_totality.1 _ _ _ (by norm_num)

/-- C1 fails on the code: on the general-position four-point set
`[(0,2), (1,1), (2,3), (3,0)]` the reference sweep attains minimal
imbalance `0` (a perfect 1-1-1-1 split at the angle encoded by `-5/3`)
while the efficient sweep attains only `1`; the two modes do not produce
the same optimal imbalance value.  The conjuncts evaluate the internal
`best_imbalance` of both searches at this input. -/
theorem c1_mode_imbalance_divergence :
    GenPos [((0:ℚ),(2:ℚ)), ((1:ℚ),(1:ℚ)), ((2:ℚ),(3:ℚ)), ((3:ℚ),(0:ℚ))] ∧
    ([((0:ℚ),(2:ℚ)), ((1:ℚ),(1:ℚ)), ((2:ℚ),(3:ℚ)), ((3:ℚ),(0:ℚ))] : List Point).length = 4 ∧
    (refBest [((0:ℚ),(2:ℚ)), ((1:ℚ),(1:ℚ)), ((2:ℚ),(3:ℚ)), ((3:ℚ),(0:ℚ))]).1 = 0 ∧
    (effState [((0:ℚ),(2:ℚ)), ((1:ℚ),(1:ℚ)), ((2:ℚ),(3:ℚ)), ((3:ℚ),(0:ℚ))]).bestImb = 1 := by
  have hc : refCenter [((0:ℚ),(2:ℚ)), ((1:ℚ),(1:ℚ)), ((2:ℚ),(3:ℚ)), ((3:ℚ),(0:ℚ))] =
      ((2 : ℚ), (2 : ℚ)) := by
    norm_num [refCenter, sortQ, List.insertionSort, List.orderedInsert,
      -Prod.mk_one_one, -Prod.mk_zero_zero, Prod.ext_iff]
  have hce : effCenter [((0:ℚ),(2:ℚ)), ((1:ℚ),(1:ℚ)), ((2:ℚ),(3:ℚ)), ((3:ℚ),(0:ℚ))] =
      ((2 : ℚ), (2 : ℚ)) := hc
  refine ⟨⟨?_, ?_, ?_⟩, rfl, ?_, ?_⟩
  · norm_num [List.pairwise_cons]
  · norm_num [List.pairwise_cons]
  · rw [hc]
    norm_num [List.mem_cons, Prod.ext_iff, -Prod.mk_one_one, -Prod.mk_zero_zero]
  · have ha : criticalAngles [((0:ℚ),(2:ℚ)), ((1:ℚ),(1:ℚ)), ((2:ℚ),(3:ℚ)), ((3:ℚ),(0:ℚ))]
        ((2 : ℚ), (2 : ℚ)) =
        [-5/2, -5/3, -3/2, -2/3, -1/2, 0, 1/3, 1, 2, 3] := by
      norm_num [criticalAngles, angleEvents, sortedDedup, insertSD, pa,
        -Prod.mk_one_one, -Prod.mk_zero_zero, Prod.ext_iff]
    rw [refBest, hc, ha]
    norm_num [refStep, refCounts, imbalance, pa, qmod4,
      -Prod.mk_one_one, -Prod.mk_zero_zero, Prod.ext_iff]
  · have hrel : relativePoints [((0:ℚ),(2:ℚ)), ((1:ℚ),(1:ℚ)), ((2:ℚ),(3:ℚ)), ((3:ℚ),(0:ℚ))]
        ((2 : ℚ), (2 : ℚ)) = [(-2,0),(-1,-1),(0,1),(1,-2)] := by
      norm_num [relativePoints, List.filter, -Prod.mk_one_one, -Prod.mk_zero_zero, Prod.ext_iff]
    have hev : (slopeEvents [(-2,0),(-1,-1),(0,1),(1,-2)]).insertionSort eventLe =
        [(.fin (-2), 1), (.fin (-1), 2), (.fin 0, 1), (.fin 0, 2),
         (.fin (1/2), 2), (.fin 1, 1), (.inf, 1), (.inf, 2)] := by
      norm_num [slopeEvents, perp_slope_of, List.insertionSort, List.orderedInsert,
        eventLe, eLt, inf_ne_fin, fin_ne_inf,
        -Prod.mk_one_one, -Prod.mk_zero_zero, Prod.ext_iff]
    have hinit : effInitCounts [(-2,0),(-1,-1),(0,1),(1,-2)] = ⟨0,0,1,3⟩ := by
      norm_num [effInitCounts, -Prod.mk_one_one, -Prod.mk_zero_zero, Prod.ext_iff]
    have him : imbalance 4 ⟨0,0,1,3⟩ = 2 := by norm_num [imbalance]
    have s1 : effStep 4 [(-2,0),(-1,-1),(0,1),(1,-2)]
        ⟨⟨0,0,1,3⟩, 2, .fin 0, none⟩ (.fin (-2), 1) =
        ⟨⟨1,1,2,0⟩, 1, .fin (-2), some (.fin (-2))⟩ := by
      norm_num [effStep, aboveMain, abovePerp, perp_slope_of, imbalance,
        inf_ne_fin, fin_ne_inf, none_ne_someE, Option.some.injEq, ESlope.fin.injEq,
        -Prod.mk_one_one, -Prod.mk_zero_zero]
    have s2 : effStep 4 [(-2,0),(-1,-1),(0,1),(1,-2)]
        ⟨⟨1,1,2,0⟩, 1, .fin (-2), some (.fin (-2))⟩ (.fin (-1), 2) =
        ⟨⟨1,1,2,0⟩, 1, .fin (-2), some (.fin (-1))⟩ := by
      norm_num [effStep, inf_ne_fin, fin_ne_inf, none_ne_someE, Option.some.injEq,
        ESlope.fin.injEq]
    have s3 : effStep 4 [(-2,0),(-1,-1),(0,1),(1,-2)]
        ⟨⟨1,1,2,0⟩, 1, .fin (-2), some (.fin (-1))⟩ (.fin 0, 1) =
        ⟨⟨0,2,1,1⟩, 1, .fin (-2), some (.fin 0)⟩ := by
      norm_num [effStep, aboveMain, abovePerp, perp_slope_of, imbalance,
        inf_ne_fin, fin_ne_inf, none_ne_someE, Option.some.injEq, ESlope.fin.injEq,
        -Prod.mk_one_one, -Prod.mk_zero_zero]
    have s4 : effStep 4 [(-2,0),(-1,-1),(0,1),(1,-2)]
        ⟨⟨0,2,1,1⟩, 1, .fin (-2), some (.fin 0)⟩ (.fin 0, 2) =
        ⟨⟨0,2,1,1⟩, 1, .fin (-2), some (.fin 0)⟩ := by
      norm_num [effStep, none_ne_someE, Option.some.injEq, ESlope.fin.injEq]
    have s5 : effStep 4 [(-2,0),(-1,-1),(0,1),(1,-2)]
        ⟨⟨0,2,1,1⟩, 1, .fin (-2), some (.fin 0)⟩ (.fin (1/2), 2) =
        ⟨⟨0,2,1,1⟩, 1, .fin (-2), some (.fin (1/2))⟩ := by
      norm_num [effStep, inf_ne_fin, fin_ne_inf, none_ne_someE, Option.some.injEq,
        ESlope.fin.injEq]
    have s6 : effStep 4 [(-2,0),(-1,-1),(0,1),(1,-2)]
        ⟨⟨0,2,1,1⟩, 1, .fin (-2), some (.fin (1/2))⟩ (.fin 1, 1) =
        ⟨⟨1,0,2,1⟩, 1, .fin (-2), some (.fin 1)⟩ := by
      norm_num [effStep, aboveMain, abovePerp, perp_slope_of, imbalance,
        inf_ne_fin, fin_ne_inf, none_ne_someE, Option.some.injEq, ESlope.fin.injEq,
        -Prod.mk_one_one, -Prod.mk_zero_zero]
    have s7 : effStep 4 [(-2,0),(-1,-1),(0,1),(1,-2)]
        ⟨⟨1,0,2,1⟩, 1, .fin (-2), some (.fin 1)⟩ (.inf, 1) =
        ⟨⟨0,1,1,2⟩, 1, .fin (-2), some .inf⟩ := by
      norm_num [effStep, aboveMain, abovePerp, perp_slope_of, imbalance,
        inf_ne_fin, fin_ne_inf, none_ne_someE, Option.some.injEq, ESlope.fin.injEq,
        -Prod.mk_one_one, -Prod.mk_zero_zero]
    have s8 : effStep 4 [(-2,0),(-1,-1),(0,1),(1,-2)]
        ⟨⟨0,1,1,2⟩, 1, .fin (-2), some .inf⟩ (.inf, 2) =
        ⟨⟨0,1,1,2⟩, 1, .fin (-2), some .inf⟩ := by
      norm_num [effStep, none_ne_someE, Option.some.injEq, ESlope.fin.injEq]
    simp only [effState, hce, hrel, hev, hinit, him, List.length_cons, List.length_nil,
      List.foldl_cons, List.foldl_nil, s1, s2, s3, s4, s5, s6, s7, s8]

/-- C2 fails on the code: at the pivot `(0,0)` and the orientation of angle
`pi/4` (pseudoangle `1/2`, slope `tan(pi/4) = 1`) the reference engine
classifies the point `(-2,1)` into its `q2` (the point is strictly off
both lines), whereas `count_points_in_quadrants` at the corresponding
slope `1` classifies the same point into `Q4`.  The ordered count vectors
of the two classifiers therefore disagree at identical geometric inputs. -/
theorem c2_engine_verifier_divergence :
    pa 1 1 = 1/2 ∧
    tanOfPseudo (1/2) = some 1 ∧
    refCounts [((-2:ℚ),(1:ℚ))] ((0:ℚ),(0:ℚ)) (1/2) = ⟨0,1,0,0⟩ ∧
    count_points_in_quadrants [((-2:ℚ),(1:ℚ))] ((0:ℚ),(0:ℚ)) 1 = ⟨0,0,0,1⟩ := by
  refine ⟨?_, ?_, ?_, ?_⟩
  · norm_num [pa]
  · norm_num [tanOfPseudo, qmod4]
  · norm_num [refCounts, pa, qmod4, -Prod.mk_one_one, -Prod.mk_zero_zero, Prod.ext_iff]
  · norm_num [count_points_in_quadrants, classifyCount, bump,
      -Prod.mk_one_one, -Prod.mk_zero_zero, Prod.ext_iff]

/-- C5 (amended): for every point set, the orientations the reference
search evaluates are exactly, for each non-pivot point, its encoded
angle-from-pivot together with the two quarter-turn shifts, deduplicated
and sorted ascending — but NOT normalized to a single half-open interval
of length pi: on every general-position input two evaluated angles differ
by exactly pi (see the counterexample), and dropping the normalization is
the only change the counterexample forces.  The initial
horizontal/vertical configuration is not added separately because it is
subsumed: on every nonempty general-position input the horizontal angle
`0` and a vertical angle (encoded `1` or `-1`) are themselves critical
angles — the x-median point lies vertically off the pivot — as the last
conjunct proves; the horizontal angle additionally serves as the default
`(n, 0)` when no critical angle strictly improves on the initial bound
`n`.  The returned pair is the first angle in sorted order achieving the
minimal evaluated imbalance (strictly smaller imbalances at all earlier
angles are excluded, later angles are no better). -/
theorem c5_critical_angles_amended (points : List Point) :
    (criticalAngles points (refCenter points)).Sorted (· < ·) ∧
    (∀ P : ℚ, P ∈ criticalAngles points (refCenter points) ↔
      ∃ p ∈ points, p ≠ refCenter points ∧
        (P = pa (p.1 - (refCenter points).1) (p.2 - (refCenter points).2) ∨
         P = pa (p.1 - (refCenter points).1) (p.2 - (refCenter points).2) + 1 ∨
         P = pa (p.1 - (refCenter points).1) (p.2 - (refCenter points).2) - 1)) ∧
    ((refBest points = ((points.length : ℚ), 0) ∧
        ∀ P ∈ criticalAngles points (refCenter points),
          (points.length : ℚ) ≤ imbalance points.length (refCounts points (refCenter points) P)) ∨
      (∃ l1 P l2, criticalAngles points (refCenter points) = l1 ++ P :: l2 ∧
        refBest points = (imbalance points.length (refCounts points (refCenter points) P), P) ∧
        imbalance points.length (refCounts points (refCenter points) P) < (points.length : ℚ) ∧
        (∀ Q ∈ l1, imbalance points.length (refCounts points (refCenter points) P) <
          imbalance points.length (refCounts points (refCenter points) Q)) ∧
        (∀ Q ∈ l2, imbalance points.length (refCounts points (refCenter points) P) ≤
          imbalance points.length (refCounts points (refCenter points) Q)))) ∧
    (points ≠ [] → GenPos points →
      (0 : ℚ) ∈ criticalAngles points (refCenter points) ∧
      ((1 : ℚ) ∈ criticalAngles points (refCenter points) ∨
       (-1 : ℚ) ∈ criticalAngles points (refCenter points))) := by
  refine ⟨sorted_sortedDedup _, ?_, ?_, ?_⟩
  · intro P
    rw [criticalAngles, mem_sortedDedup, mem_angleEvents]
  · have hrb : refBest points =
        (criticalAngles points (refCenter points)).foldl
          (refStep points.length points (refCenter points))
          ((points.length : ℚ), 0) := rfl
    have hspec := foldl_best_spec
      (fun P => imbalance points.length (refCounts points (refCenter points) P))
      (criticalAngles points (refCenter points)) ((points.length : ℚ), 0)
    rw [← refStep_eq] at hspec
    rcases hspec with ⟨heq, hall⟩ | ⟨l1, P, l2, hsplit, heq, hlt, h1, h2⟩
    · left
      exact ⟨by rw [hrb, heq], fun P hP => hall P hP⟩
    · right
      exact ⟨l1, P, l2, hsplit, by rw [hrb, heq], hlt, h1, h2⟩
  · intro hne hgp
    obtain ⟨p, hp, hpx⟩ := exists_fst_eq_refCenter points hne
    have hpc : p ≠ refCenter points := fun hEq => hgp.2.2 (hEq ▸ hp)
    have hdy : p.2 ≠ (refCenter points).2 := by
      intro h2
      exact hpc (Prod.ext_iff.2 ⟨hpx, h2⟩)
    have hdx0 : p.1 - (refCenter points).1 = 0 := by rw [hpx, sub_self]
    have hmm : ∀ x : ℚ, (∃ q ∈ points, q ≠ refCenter points ∧
        (x = pa (q.1 - (refCenter points).1) (q.2 - (refCenter points).2) ∨
         x = pa (q.1 - (refCenter points).1) (q.2 - (refCenter points).2) + 1 ∨
         x = pa (q.1 - (refCenter points).1) (q.2 - (refCenter points).2) - 1)) →
        x ∈ criticalAngles points (refCenter points) := by
      intro x hx
      rw [criticalAngles, mem_sortedDedup, mem_angleEvents]
      exact hx
    rcases lt_or_gt_of_ne (sub_ne_zero.2 hdy) with hneg | hpos
    · have hpa : pa (p.1 - (refCenter points).1) (p.2 - (refCenter points).2) = -1 := by
        rw [hdx0]
        exact pa_zero_of_neg hneg
      refine ⟨?_, Or.inr ?_⟩
      · exact hmm 0 ⟨p, hp, hpc, Or.inr (Or.inl (by rw [hpa]; norm_num))⟩
      · exact hmm (-1) ⟨p, hp, hpc, Or.inl hpa.symm⟩
    · have hpa : pa (p.1 - (refCenter points).1) (p.2 - (refCenter points).2) = 1 := by
        rw [hdx0]
        exact pa_zero_of_pos hpos
      refine ⟨?_, Or.inl ?_⟩
      · exact hmm 0 ⟨p, hp, hpc, Or.inr (Or.inr (by rw [hpa]; norm_num))⟩
      · exact hmm 1 ⟨p, hp, hpc, Or.inl hpa.symm⟩

/-- Witness for C5 at the general-position input `[(0,1), (1,0)]` (pivot
`(1,1)`, not a member): the nested nonemptiness and general-position
hypotheses of the subsumption conjunct are discharged concretely, placing
the initial horizontal angle `0` and a vertical angle among the evaluated
critical angles. -/
theorem c5_critical_angles_witness :
    (0 : ℚ) ∈ criticalAngles [((0:ℚ),(1:ℚ)), ((1:ℚ),(0:ℚ))]
        (refCenter [((0:ℚ),(1:ℚ)), ((1:ℚ),(0:ℚ))]) ∧
    ((1 : ℚ) ∈ criticalAngles [((0:ℚ),(1:ℚ)), ((1:ℚ),(0:ℚ))]
        (refCenter [((0:ℚ),(1:ℚ)), ((1:ℚ),(0:ℚ))]) ∨
     (-1 : ℚ) ∈ criticalAngles [((0:ℚ),(1:ℚ)), ((1:ℚ),(0:ℚ))]
        (refCenter [((0:ℚ),(1:ℚ)), ((1:ℚ),(0:ℚ))])) :=
  (c5_critical_angles_amended [((0:ℚ),(1:ℚ)), ((1:ℚ),(0:ℚ))]).2.2.2
    (by simp)
    (by
      refine ⟨?_, ?_, ?_⟩
      · norm_num [List.pairwise_cons]
      · norm_num [List.pairwise_cons]
      · have hc : refCenter [((0:ℚ),(1:ℚ)), ((1:ℚ),(0:ℚ))] = ((1:ℚ), (1:ℚ)) := by
          norm_num [refCenter, sortQ, List.insertionSort, List.orderedInsert,
            -Prod.mk_one_one, -Prod.mk_zero_zero, Prod.ext_iff]
        rw [hc]
        norm_num [List.mem_cons, Prod.ext_iff, -Prod.mk_one_one, -Prod.mk_zero_zero])

/-- Counterexample for C5 as stated: the four-point input
`[(0,2), (1,1), (2,3), (3,0)]` is in general position (all x distinct, all
y distinct, pivot `(2,2)` not a member), yet its evaluated critical-angle
list contains both the encoded angles `0` and `2` — the horizontal angle
and the angle `pi`, whose difference is exactly pi — so no half-open
interval of length pi (length `2` in the encoding) contains the evaluated
set, contradicting the claimed normalization at an admissible input. -/
theorem c5_normalization_counterexample :
    GenPos [((0:ℚ),(2:ℚ)), ((1:ℚ),(1:ℚ)), ((2:ℚ),(3:ℚ)), ((3:ℚ),(0:ℚ))] ∧
    (0 : ℚ) ∈ criticalAngles [((0:ℚ),(2:ℚ)), ((1:ℚ),(1:ℚ)), ((2:ℚ),(3:ℚ)), ((3:ℚ),(0:ℚ))]
        (refCenter [((0:ℚ),(2:ℚ)), ((1:ℚ),(1:ℚ)), ((2:ℚ),(3:ℚ)), ((3:ℚ),(0:ℚ))]) ∧
    (2 : ℚ) ∈ criticalAngles [((0:ℚ),(2:ℚ)), ((1:ℚ),(1:ℚ)), ((2:ℚ),(3:ℚ)), ((3:ℚ),(0:ℚ))]
        (refCenter [((0:ℚ),(2:ℚ)), ((1:ℚ),(1:ℚ)), ((2:ℚ),(3:ℚ)), ((3:ℚ),(0:ℚ))]) ∧
    ¬ ∃ t : ℚ, ∀ P ∈ criticalAngles
        [((0:ℚ),(2:ℚ)), ((1:ℚ),(1:ℚ)), ((2:ℚ),(3:ℚ)), ((3:ℚ),(0:ℚ))]
        (refCenter [((0:ℚ),(2:ℚ)), ((1:ℚ),(1:ℚ)), ((2:ℚ),(3:ℚ)), ((3:ℚ),(0:ℚ))]),
          t ≤ P ∧ P < t + 2 := by
  have hc : refCenter [((0:ℚ),(2:ℚ)), ((1:ℚ),(1:ℚ)), ((2:ℚ),(3:ℚ)), ((3:ℚ),(0:ℚ))] =
      ((2 : ℚ), (2 : ℚ)) := by
    norm_num [refCenter, sortQ, List.insertionSort, List.orderedInsert,
      -Prod.mk_one_one, -Prod.mk_zero_zero, Prod.ext_iff]
  have ha : criticalAngles [((0:ℚ),(2:ℚ)), ((1:ℚ),(1:ℚ)), ((2:ℚ),(3:ℚ)), ((3:ℚ),(0:ℚ))]
      ((2 : ℚ), (2 : ℚ)) =
      [-5/2, -5/3, -3/2, -2/3, -1/2, 0, 1/3, 1, 2, 3] := by
    norm_num [criticalAngles, angleEvents, sortedDedup, insertSD, pa,
      -Prod.mk_one_one, -Prod.mk_zero_zero, Prod.ext_iff]
  refine ⟨⟨?_, ?_, ?_⟩, ?_, ?_, ?_⟩
  · norm_num [List.pairwise_cons]
  · norm_num [List.pairwise_cons]
  · rw [hc]
    norm_num [List.mem_cons, Prod.ext_iff, -Prod.mk_one_one, -Prod.mk_zero_zero]
  · rw [hc, ha]
    norm_num
  · rw [hc, ha]
    norm_num
  · rw [hc, ha]
    rintro ⟨t, ht⟩
    have h0 := ht 0 (by norm_num)
    have h2 := ht 2 (by norm_num)
    linarith [h0.1, h0.2, h2.1, h2.2]

/-- C9: the efficient search can expose the IEEE infinity sentinel at its
public interface: on the vertically collinear input `[(0,0), (0,1), (0,2)]`
it returns the slope `inf` (the vertical orientation, as the raw sentinel
value, not a tagged type).  The reference search never does: whatever it
returns is `math.tan` of an evaluated critical angle, or `tan 0 = 0` by
default — `tanOfPseudo` values, which are finite rationals except at an
exactly vertical angle, where the float `math.tan` still yields a huge
finite double (the ideal tangent being undefined there is recorded as
`none`). -/
theorem c9_vertical_sentinel_exposure :
    orthogonal_equipartition_efficient [((0:ℚ),(0:ℚ)), ((0:ℚ),(1:ℚ)), ((0:ℚ),(2:ℚ))] =
      some (((0:ℚ), (1:ℚ)), ESlope.inf) ∧
    (∀ (points : List Point) (c : Point) (s : Option ℚ),
      orthogonal_equipartition points = some (c, s) →
        s = tanOfPseudo 0 ∨
          ∃ P ∈ criticalAngles points (refCenter points), s = tanOfPseudo P) := by
  constructor
  · have hce : effCenter [((0:ℚ),(0:ℚ)), ((0:ℚ),(1:ℚ)), ((0:ℚ),(2:ℚ))] = ((0:ℚ), (1:ℚ)) := by
      norm_num [effCenter, sortQ, List.insertionSort, List.orderedInsert,
        -Prod.mk_one_one, -Prod.mk_zero_zero, Prod.ext_iff]
    have hrel : relativePoints [((0:ℚ),(0:ℚ)), ((0:ℚ),(1:ℚ)), ((0:ℚ),(2:ℚ))] ((0:ℚ), (1:ℚ)) =
        [(0,-1),(0,1)] := by
      norm_num [relativePoints, List.filter, -Prod.mk_one_one, -Prod.mk_zero_zero, Prod.ext_iff]
    have hev : (slopeEvents [(0,-1),(0,1)]).insertionSort eventLe =
        [(.fin 0, 2), (.fin 0, 2), (.inf, 1), (.inf, 1)] := by
      norm_num [slopeEvents, perp_slope_of, List.insertionSort, List.orderedInsert,
        eventLe, eLt, inf_ne_fin, fin_ne_inf,
        -Prod.mk_one_one, -Prod.mk_zero_zero, Prod.ext_iff]
    have hinit : effInitCounts [(0,-1),(0,1)] = ⟨0,0,0,2⟩ := by
      norm_num [effInitCounts, -Prod.mk_one_one, -Prod.mk_zero_zero, Prod.ext_iff]
    have him : imbalance 3 ⟨0,0,0,2⟩ = 5/4 := by
      norm_num [imbalance, abs_of_nonneg, abs_of_nonpos, max_def]
    have s1 : effStep 3 [(0,-1),(0,1)]
        ⟨⟨0,0,0,2⟩, 5/4, .fin 0, none⟩ (.fin 0, 2) =
        ⟨⟨0,0,0,2⟩, 5/4, .fin 0, some (.fin 0)⟩ := by
      norm_num [effStep, none_ne_someE, Option.some.injEq, ESlope.fin.injEq]
    have s2 : effStep 3 [(0,-1),(0,1)]
        ⟨⟨0,0,0,2⟩, 5/4, .fin 0, some (.fin 0)⟩ (.fin 0, 2) =
        ⟨⟨0,0,0,2⟩, 5/4, .fin 0, some (.fin 0)⟩ := by
      norm_num [effStep, none_ne_someE, Option.some.injEq, ESlope.fin.injEq]
    have s3 : effStep 3 [(0,-1),(0,1)]
        ⟨⟨0,0,0,2⟩, 5/4, .fin 0, some (.fin 0)⟩ (.inf, 1) =
        ⟨⟨0,1,1,0⟩, 3/4, .inf, some .inf⟩ := by
      norm_num [effStep, aboveMain, abovePerp, perp_slope_of, imbalance,
        inf_ne_fin, fin_ne_inf, none_ne_someE, Option.some.injEq, ESlope.fin.injEq,
        abs_of_nonneg, abs_of_nonpos, max_def,
        -Prod.mk_one_one, -Prod.mk_zero_zero]
    have s4 : effStep 3 [(0,-1),(0,1)]
        ⟨⟨0,1,1,0⟩, 3/4, .inf, some .inf⟩ (.inf, 1) =
        ⟨⟨0,1,1,0⟩, 3/4, .inf, some .inf⟩ := by
      norm_num [effStep, none_ne_someE, Option.some.injEq, ESlope.fin.injEq]
    have hstate : effState [((0:ℚ),(0:ℚ)), ((0:ℚ),(1:ℚ)), ((0:ℚ),(2:ℚ))] =
        ⟨⟨0,1,1,0⟩, 3/4, .inf, some .inf⟩ := by
      simp only [effState, hce, hrel, hev, hinit, him, List.length_cons, List.length_nil,
        List.foldl_cons, List.foldl_nil, s1, s2, s3, s4]
    rw [orthogonal_equipartition_efficient, if_neg (by norm_num), hce, hstate]
  · intro points c s h
    by_cases hlen : points.length = 0
    · rw [orthogonal_equipartition, if_pos hlen] at h
      exact Option.noConfusion h
    · rw [orthogonal_equipartition, if_neg hlen] at h
      simp only [Option.some.injEq, Prod.mk.injEq] at h
      rcases refBest_snd_mem points with h0 | hmem
      · left
        rw [← h.2, h0]
      · right
        exact ⟨(refBest points).2, hmem, h.2.symm⟩

/-- Witness for C9 at the collinear input `[(0,0), (0,1), (0,2)]`: the
reference search there returns the slope `some 0`, which the claim theorem
places among the tangents of evaluated angles (or the default). -/
theorem c9_vertical_sentinel_witness :
    some (0 : ℚ) = tanOfPseudo 0 ∨
      ∃ P ∈ criticalAngles [((0:ℚ),(0:ℚ)), ((0:ℚ),(1:ℚ)), ((0:ℚ),(2:ℚ))]
          (refCenter [((0:ℚ),(0:ℚ)), ((0:ℚ),(1:ℚ)), ((0:ℚ),(2:ℚ))]),
        some (0 : ℚ) = tanOfPseudo P := by
  apply c9_vertical_sentinel_exposure.2 [((0:ℚ),(0:ℚ)), ((0:ℚ),(1:ℚ)), ((0:ℚ),(2:ℚ))]
    ((0:ℚ), (1:ℚ)) (some 0)
  have hc : refCenter [((0:ℚ),(0:ℚ)), ((0:ℚ),(1:ℚ)), ((0:ℚ),(2:ℚ))] = ((0:ℚ), (1:ℚ)) := by
    norm_num [refCenter, sortQ, List.insertionSort, List.orderedInsert,
      -Prod.mk_one_one, -Prod.mk_zero_zero, Prod.ext_iff]
  have hl : criticalAngles [((0:ℚ),(0:ℚ)), ((0:ℚ),(1:ℚ)), ((0:ℚ),(2:ℚ))] ((0:ℚ), (1:ℚ)) =
      [-2, -1, 0, 1, 2] := by
    norm_num [criticalAngles, angleEvents, sortedDedup, insertSD, pa,
      -Prod.mk_one_one, -Prod.mk_zero_zero, Prod.ext_iff]
  have hbest : refBest [((0:ℚ),(0:ℚ)), ((0:ℚ),(1:ℚ)), ((0:ℚ),(2:ℚ))] = (3/4, -2) := by
    rw [refBest, hc, hl]
    norm_num [refStep, refCounts, imbalance, pa, qmod4,
      abs_of_nonneg, abs_of_nonpos, max_def,
      -Prod.mk_one_one, -Prod.mk_zero_zero, Prod.ext_iff]
  rw [orthogonal_equipartition, if_neg (by norm_num), hc, hbest]
  norm_num [tanOfPseudo, qmod4]

end OrthEquip
